import Mathlib

/-!
Verification development for the snappy-web-agent device-communication
pipeline.  The Rust sources (src/encryption.rs, src/serial.rs,
src/socketio.rs, src/models.rs) are shallowly embedded below: machine
integers (u32/u16/u8) become `Nat` with explicit reduction modulo
2^32 / 2^16 / 2^8 where the source wraps, byte buffers become `List Nat`,
strings become `List Char`, and the panicking slice accesses of the
decoder become an `Except` error.  Side-effecting collaborators
(filesystem seed load, sysfs serial lookup, transport reads) are
parameters of the embedded functions.
-/

set_option maxRecDepth 10000

/-- Reduction modulo 2^32, the wrapping of u32 arithmetic. -/
def wrap (x : Nat) : Nat := x % 4294967296

/-- u32 rotate_left: `(x <<< n) ||| (x >>> (32 - n))` on 32-bit words
(faithful for `x < 2^32`, the u32 invariant of the source). -/
def rotl (x n : Nat) : Nat := (((x <<< n) % 4294967296) ||| (x >>> (32 - n)))

/-- u32::from_le_bytes on four byte values. -/
def fromLE4 (a b c d : Nat) : Nat := a + 256 * b + 65536 * c + 16777216 * d

/-- u32::to_le_bytes of a word. -/
def toLE4 (x : Nat) : List Nat :=
  [x % 256, x / 256 % 256, x / 65536 % 256, x / 16777216 % 256]

/-- chacha20_quarter_round from src/encryption.rs: mutates words a b c d of
the 16-word state (state as a 16-element list, `List.set`/`getD` for the
array writes/reads). -/
def chacha20_quarter_round (s : List Nat) (a b c d : Nat) : List Nat :=
  let s := s.set a (wrap (s.getD a 0 + s.getD b 0))
  let s := s.set d (s.getD d 0 ^^^ s.getD a 0)
  let s := s.set d (rotl (s.getD d 0) 16)
  let s := s.set c (wrap (s.getD c 0 + s.getD d 0))
  let s := s.set b (s.getD b 0 ^^^ s.getD c 0)
  let s := s.set b (rotl (s.getD b 0) 12)
  let s := s.set a (wrap (s.getD a 0 + s.getD b 0))
  let s := s.set d (s.getD d 0 ^^^ s.getD a 0)
  let s := s.set d (rotl (s.getD d 0) 8)
  let s := s.set c (wrap (s.getD c 0 + s.getD d 0))
  let s := s.set b (s.getD b 0 ^^^ s.getD c 0)
  let s := s.set b (rotl (s.getD b 0) 7)
  s

/-- One double round: the eight quarter-round calls of the inner loop of
chacha20_block (column pattern then diagonal pattern). -/
def chachaDoubleRound (s : List Nat) : List Nat :=
  let s := chacha20_quarter_round s 0 4 8 12
  let s := chacha20_quarter_round s 1 5 9 13
  let s := chacha20_quarter_round s 2 6 10 14
  let s := chacha20_quarter_round s 3 7 11 15
  let s := chacha20_quarter_round s 0 5 10 15
  let s := chacha20_quarter_round s 1 6 11 12
  let s := chacha20_quarter_round s 2 7 8 13
  let s := chacha20_quarter_round s 3 4 9 14
  s

/-- The `for _ in 0..10` loop of chacha20_block. -/
def chachaRounds : Nat → List Nat → List Nat
  | 0, s => s
  | n + 1, s => chachaRounds n (chachaDoubleRound s)

/-- chacha20_block from src/encryption.rs: run 10 double rounds on a copy of
the state, add the original state word-wise (wrapping), serialize the 16
words as 64 little-endian bytes. -/
def chacha20_block (st : List Nat) : List Nat :=
  let ws := chachaRounds 10 st
  (List.range 16).flatMap (fun i => toLE4 (wrap (ws.getD i 0 + st.getD i 0)))

/-- The initial 16-word state of chacha20_encrypt: 4 constants, 8 key words
(little-endian from key bytes 0..32), the counter at word 12, and 3 words
from nonce bytes 0..12 at words 13..16. -/
def chachaInitState (key nonce : List Nat) (counter : Nat) : List Nat :=
  [0x61707865,
   0x3320646e,
   0x79622d32,
   0x6b206574,
   fromLE4 (key.getD 0 0) (key.getD 1 0) (key.getD 2 0) (key.getD 3 0),
   fromLE4 (key.getD 4 0) (key.getD 5 0) (key.getD 6 0) (key.getD 7 0),
   fromLE4 (key.getD 8 0) (key.getD 9 0) (key.getD 10 0) (key.getD 11 0),
   fromLE4 (key.getD 12 0) (key.getD 13 0) (key.getD 14 0) (key.getD 15 0),
   fromLE4 (key.getD 16 0) (key.getD 17 0) (key.getD 18 0) (key.getD 19 0),
   fromLE4 (key.getD 20 0) (key.getD 21 0) (key.getD 22 0) (key.getD 23 0),
   fromLE4 (key.getD 24 0) (key.getD 25 0) (key.getD 26 0) (key.getD 27 0),
   fromLE4 (key.getD 28 0) (key.getD 29 0) (key.getD 30 0) (key.getD 31 0),
   counter,
   fromLE4 (nonce.getD 0 0) (nonce.getD 1 0) (nonce.getD 2 0) (nonce.getD 3 0),
   fromLE4 (nonce.getD 4 0) (nonce.getD 5 0) (nonce.getD 6 0) (nonce.getD 7 0),
   fromLE4 (nonce.getD 8 0) (nonce.getD 9 0) (nonce.getD 10 0) (nonce.getD 11 0)]

/-- Concatenated keystream of `n` successive chacha20_block outputs; the
block counter (state word 12) is wrapping-incremented after each block,
exactly as in the while loop of chacha20_encrypt. -/
def chachaKeystream (st : List Nat) : Nat → List Nat
  | 0 => []
  | n + 1 =>
    chacha20_block st ++ chachaKeystream (st.set 12 (wrap (st.getD 12 0 + 1))) n

/-- The XOR loop of chacha20_encrypt: output byte i is input byte i XOR
keystream byte i, with ceil(len/64) blocks generated. -/
def chacha20_xor (key nonce : List Nat) (counter : Nat) (input : List Nat) : List Nat :=
  List.zipWith (fun a b => a ^^^ b) input
    (chachaKeystream (chachaInitState key nonce counter) ((input.length + 63) / 64))

/-- chacha20_encrypt from src/encryption.rs.  The output buffer of the Rust
signature is represented by its length `outLen`; the
`assert_eq!(input.len(), output.len())` that runs before any output byte is
produced becomes the `Except.error` branch. -/
def chacha20_encrypt (key nonce : List Nat) (counter : Nat) (input : List Nat)
    (outLen : Nat) : Except String (List Nat) :=
  if input.length = outLen then
    Except.ok (chacha20_xor key nonce counter input)
  else
    Except.error "Input and output buffers must be the same length"

/-- chacha20_decrypt from src/encryption.rs: the identical transform, passing
the key itself as the nonce argument. -/
def chacha20_decrypt (key : List Nat) (counter : Nat) (ciphertext : List Nat)
    (outLen : Nat) : Except String (List Nat) :=
  chacha20_encrypt key key counter ciphertext outLen

/-- MAGIC1 of src/encryption.rs. -/
def MAGIC1 : Nat := 0x9e3779b9

/-- MAGIC2 of src/encryption.rs. -/
def MAGIC2 : Nat := 0x85ebca6b

/-- MAGIC3 of src/encryption.rs. -/
def MAGIC3 : Nat := 0xc2b2ae35

/-- The mixing round `r` of src/encryption.rs:
`*x ^= y.wrapping_add(MAGIC1).wrapping_mul(*x | MAGIC2);
 *x = x.rotate_left(13).wrapping_mul(MAGIC3);`. -/
def mixRound (x y : Nat) : Nat :=
  let x1 := x ^^^ wrap (wrap (y + MAGIC1) * (x ||| MAGIC2))
  wrap (rotl x1 13 * MAGIC3)

/-- The default key vector of load_key_from_cargo_toml (the fallback
constant, also the fallback of hash_serial itself). -/
def DEFAULT_KEY_VECTOR : List Nat :=
  [0x9c2f6d44, 0xa68b3179, 0xf2c1be0a, 0x7d54c3f1,
   0x3e118d6b, 0x4f0b92e7, 0x1dac785c, 0xe6132fa8]

/-- The `for i in 0..b.len()` loop of hash_serial: starting at input index
`i0`, each input byte x at overall index i updates state word `i % 8` with
`mixRound (v[i % 8]) (x + i)` (the u32 cast sum, wrapping). -/
def hashRounds (v : List Nat) : List Nat → Nat → List Nat
  | [], _ => v
  | x :: rest, i0 =>
    hashRounds (v.set (i0 % 8) (mixRound (v.getD (i0 % 8) 0) (wrap (x + i0)))) rest (i0 + 1)

/-- hash_serial from src/encryption.rs, parameterized by the seed vector `v`
(the Rust function loads it from Cargo.toml with DEFAULT_KEY_VECTOR as
fallback).  The output loop `for i in 0..8 { w(h, v[(i * 5) % 8], i) }`
serializes state word `(i * 5) % 8` as little-endian group i. -/
def hash_serial (v : List Nat) (b : List Nat) : List Nat :=
  let v2 := hashRounds v b 0
  (List.range 8).flatMap (fun i => toLE4 (v2.getD ((i * 5) % 8) 0))

/-- EXPECTED_PREFIX from src/models.rs: the magic bytes "SNAPPY:". -/
def EXPECTED_PREFIX : List Nat := [0x53, 0x4e, 0x41, 0x50, 0x50, 0x59, 0x3a]

/-- VID from src/models.rs. -/
def VID : Nat := 0xb1b0

/-- PIDS from src/models.rs. -/
def PIDS : List Nat := [0x5508, 0x8055]

/-- One lowercase hex digit, as produced by the `{:02x}` format. -/
def hexDigit (n : Nat) : Char := if n < 10 then Char.ofNat (48 + n) else Char.ofNat (87 + n)

/-- The two-digit lowercase hex rendering `{:02x}` of a byte. -/
def hexPair (b : Nat) : List Char := [hexDigit (b / 16 % 16), hexDigit (b % 16)]

/-- trim_end_matches of the colon character: drop every trailing colon. -/
def trimTrailingColons (cl : List Char) : List Char :=
  (cl.reverse.dropWhile (fun c => c = ':')).reverse

/-- The MAC-string construction of process_serial_message_with_emit: write
`"{:02x}:"` for each byte, then trim the trailing colon.  Strings are
embedded as `List Char`. -/
def macChars (bs : List Nat) : List Char :=
  trimTrailingColons (bs.flatMap (fun b => hexPair b ++ [':']))

/-- SnapDataEvent from src/models.rs (the timestamp, taken from the wall
clock at emission, is outside the embedding). -/
structure SnapDataEvent where
  mac : List Char
  value : Nat
  pid : Nat
deriving DecidableEq, Repr

/-- process_serial_message_with_emit from src/serial.rs.  The guard is
`message.len() >= 14 && message[..7] == EXPECTED_PREFIX`; inside the guard
the Rust slices `&message[7..13]` (safe, 13 <= len) and `&message[13..15]`
(panics if len = 14): the panicking slice becomes the `Except.error`
branch.  The device value is `((dev[0] as u16) << 8) | dev[1]`. -/
def process_serial_message_with_emit (message : List Nat) (device_pid : Nat) :
    Except String (Option SnapDataEvent) :=
  if 14 ≤ message.length ∧ message.take 7 = EXPECTED_PREFIX then
    if 15 ≤ message.length then
      let mac_bytes := (message.drop 7).take 6
      let dev_value := (message.drop 13).take 2
      let device_value := ((dev_value.getD 0 0) <<< 8) ||| dev_value.getD 1 0
      Except.ok (some { mac := macChars mac_bytes, value := device_value, pid := device_pid })
    else
      Except.error "range end index 15 out of range for slice of length 14"
  else
    Except.ok none

/-- Decidable equality for Except values, used to evaluate the embedded
decoder and cipher wrappers on concrete frames. -/
instance {ε α : Type} [DecidableEq ε] [DecidableEq α] : DecidableEq (Except ε α) := fun x y =>
  match x, y with
  | .ok a, .ok b =>
    if h : a = b then isTrue (by rw [h]) else isFalse (by intro he; cases he; exact h rfl)
  | .error a, .error b =>
    if h : a = b then isTrue (by rw [h]) else isFalse (by intro he; cases he; exact h rfl)
  | .ok _, .error _ => isFalse (by intro he; cases he)
  | .error _, .ok _ => isFalse (by intro he; cases he)

/-- The 14-byte magic-prefixed frame of claim C2's boundary case. -/
def c2_failing_frame : List Nat := EXPECTED_PREFIX ++ [1, 2, 3, 4, 5, 6, 0]

/-- The 15-byte example frame of claim C7. -/
def c7_example_frame : List Nat := EXPECTED_PREFIX ++ [1, 2, 3, 4, 5, 6, 0, 42]

/-- Position of the first two-byte window equal to `\r\n` (0x0D 0x0A), as
computed by `data_buffer.windows(2).position(|w| w == b"\r\n")`. -/
def findDelim : List Nat → Option Nat
  | a :: b :: tl => if a = 13 ∧ b = 10 then some 0 else (findDelim (b :: tl)).map (· + 1)
  | _ => none

/-- A found delimiter window lies inside the buffer. -/
theorem findDelim_bound : ∀ (l : List Nat) (p : Nat), findDelim l = some p → p + 2 ≤ l.length := by
  intro l
  induction l with
  | nil => intro p h; simp [findDelim] at h
  | cons a tl ih =>
    intro p h
    cases tl with
    | nil => simp [findDelim] at h
    | cons b tl2 =>
      rw [findDelim] at h
      by_cases hab : a = 13 ∧ b = 10
      · rw [if_pos hab] at h
        cases h
        simp
      · rw [if_neg hab] at h
        cases hq : findDelim (b :: tl2) with
        | none => rw [hq] at h; simp at h
        | some q =>
          rw [hq] at h
          simp at h
          have hb := ih q hq
          simp at hb ⊢
          omega

/-- The while-let extraction loop of the serial read path: repeatedly find
the first delimiter, cut off the frame before it, drain frame plus
delimiter; stop when no delimiter remains.  Returns (frames in arrival
order, remaining buffer). -/
def extractAll (buf : List Nat) : List (List Nat) × List Nat :=
  match h : findDelim buf with
  | none => ([], buf)
  | some p =>
    let res := extractAll (buf.drop (p + 2))
    (buf.take p :: res.1, res.2)
termination_by buf.length
decreasing_by
  have hb := findDelim_bound buf p h
  simp
  omega

/-- Unfolding lemma for extractAll when no delimiter is present. -/
theorem extractAll_none {buf : List Nat} (h : findDelim buf = none) :
    extractAll buf = ([], buf) := by
  rw [extractAll]
  split
  · rfl
  · rename_i p hp; rw [h] at hp; cases hp

/-- Unfolding lemma for extractAll at the first delimiter. -/
theorem extractAll_some {buf : List Nat} {p : Nat} (h : findDelim buf = some p) :
    extractAll buf =
      (buf.take p :: (extractAll (buf.drop (p + 2))).1, (extractAll (buf.drop (p + 2))).2) := by
  rw [extractAll]
  split
  · rename_i hn; rw [h] at hn; cases hn
  · rename_i q hq
    rw [h] at hq
    cases hq
    rfl

/-- One pass of the serial read-loop body after a successful `port.read`
(src/serial.rs, the `Ok(bytes_read) if bytes_read > 0` arm): extend
data_buffer with the chunk, then run the while-let extraction loop,
decrypting each extracted message with chacha20_decrypt(hash, counter, ..)
(equal-length buffers, so the assert passes and the result is the
keystream XOR).  Returns (decrypted frames in order, remaining buffer).
There is no accumulator size ceiling on this path. -/
def serialReadStep (data_buffer chunk : List Nat) (hash : List Nat) (counter : Nat) :
    List (List Nat) × List Nat :=
  let res := extractAll (data_buffer ++ chunk)
  (res.1.map (fun message => chacha20_xor hash hash counter message), res.2)

/-- read_snappy_data_via_usb from src/serial.rs, after the bulk read
returned `chunk` (the `Ok(bytes_read)` arm; the transfer-error arm is
outside this embedding): extend the accumulator; if it now exceeds
MAX_ACCUMULATOR = 4096, clear it and surface the overflow error; otherwise
extract at most one delimiter-terminated frame and decrypt it.  Returns
(new accumulator, optional result). -/
def read_snappy_data_via_usb (accumulator chunk : List Nat) (hash : List Nat)
    (counter : Nat) : List Nat × Option (Except String (List Nat)) :=
  let acc := accumulator ++ chunk
  if acc.length > 4096 then
    ([], some (Except.error "Accumulator overflow without frame delimiter; buffer reset"))
  else
    match findDelim acc with
    | some pos =>
      (acc.drop (pos + 2), some (Except.ok (chacha20_xor hash hash counter (acc.take pos))))
    | none => (acc, none)

/-- Feeding a sequence of read chunks through the serial read loop's
accumulator: each chunk is appended and every complete frame is extracted
before the next read, as in the while-let loop.  Returns (all extracted
raw frames in order, final buffer). -/
def feedChunks (buf : List Nat) : List (List Nat) → List (List Nat) × List Nat
  | [] => ([], buf)
  | c :: cs =>
    let res := extractAll (buf ++ c)
    let rest := feedChunks res.2 cs
    (res.1 ++ rest.1, rest.2)

/-- Device description as reported by serial-port enumeration
(serialport::SerialPortInfo with a UsbPort type): vendor id, product id,
port name and the optional port-level serial string. -/
structure PortInfo where
  vid : Nat
  pid : Nat
  port_name : List Char
  serial_number : Option (List Char)
deriving DecidableEq, Repr

/-- The serial-to-key-bytes conversion of the poll loop: chars to u32 code
points, take 16, narrow each to u8 (`c as u8` truncates mod 256). -/
def serialToKeyBytes (s : List Char) : List Nat :=
  ((s.map (fun c => c.toNat)).take 16).map (fun w => w % 256)

/-- The effective serial of a matched port: if the port-level serial is
absent or the placeholder "6", fall back to the sysfs lookup `get_serial`
(modelled as the oracle `g`). -/
def effectiveSerial (g : List Char → Option (List Char)) (p : PortInfo) :
    Option (List Char) :=
  if p.serial_number = none ∨ p.serial_number = some ['6'] then g p.port_name
  else p.serial_number

/-- One discovery-poll iteration of start_snappy_with_socket (the
non-Windows branch, src/serial.rs lines 270-317): walk the enumerated
ports; at the first port with vid = VID and pid in PIDS, resolve the
effective serial; on success replace the shared hash_key
(`hash_key.clear(); hash_key.extend_from_slice(..)`), otherwise leave it
unchanged; either way report the detected device and stop scanning.
Returns (hash_key after the iteration, detected device). -/
def pollIteration (g : List Char → Option (List Char)) (ports : List PortInfo)
    (hash_key : List Nat) : List Nat × Option (List Char × Nat) :=
  match ports with
  | [] => (hash_key, none)
  | p :: rest =>
    if p.vid = VID ∧ p.pid ∈ PIDS then
      match effectiveSerial g p with
      | some s => (serialToKeyBytes s, some (p.port_name, p.pid))
      | none => (hash_key, some (p.port_name, p.pid))
    else pollIteration g rest hash_key

/-- One iteration of the discovery-poll loop including its gate: the loop
body starts with `if !is_snappy_collecting() { break }`, so with the
collecting flag cleared the iteration exits (`none`) before any work. -/
def pollLoopStep (collecting : Bool) (g : List Char → Option (List Char))
    (ports : List PortInfo) (hash_key : List Nat) :
    Option (List Nat × Option (List Char × Nat)) :=
  if collecting then some (pollIteration g ports hash_key) else none

/-- One iteration of the serial read loop including its gate: the body
starts with `if !is_snappy_collecting() { break }`; otherwise the read
chunk is accumulated, frames are extracted and decrypted, and each
decrypted message is processed (its emission outcome recorded).  `none`
means the loop exited. -/
def serialReadLoopStep (collecting : Bool) (data_buffer chunk hash : List Nat)
    (counter device_pid : Nat) :
    Option (List Nat × List (Except String (Option SnapDataEvent))) :=
  if collecting then
    let res := serialReadStep data_buffer chunk hash counter
    some (res.2, res.1.map (fun m => process_serial_message_with_emit m device_pid))
  else none

/-- A run of the serial read loop: one flag reading and one read chunk per
iteration; the run ends at the first iteration whose flag reading is
false.  Returns every emission outcome of the run in order. -/
def serialReadLoopRun : List Bool → List (List Nat) → List Nat → List Nat →
    Nat → Nat → List (Except String (Option SnapDataEvent))
  | f :: fs, c :: cs, data_buffer, hash, counter, device_pid =>
    match serialReadLoopStep f data_buffer c hash counter device_pid with
    | none => []
    | some res => res.2 ++ serialReadLoopRun fs cs res.1 hash counter device_pid
  | _, _, _, _, _, _ => []

/-- A ChaCha block is always 64 bytes. -/
theorem chacha20_block_length (st : List Nat) : (chacha20_block st).length = 64 := by
  simp only [chacha20_block]
  rw [show List.range 16 = [0,1,2,3,4,5,6,7,8,9,10,11,12,13,14,15] from rfl]
  simp [toLE4]

/-- The keystream of n blocks has 64 * n bytes. -/
theorem chachaKeystream_length (n : Nat) : ∀ (st : List Nat),
    (chachaKeystream st n).length = 64 * n := by
  induction n with
  | zero => intro st; simp [chachaKeystream]
  | succ m ih =>
    intro st
    simp [chachaKeystream, chacha20_block_length, ih]
    omega

/-- XORing twice with the same keystream gives back the input, provided the
keystream covers the input. -/
theorem zipWith_xor_cancel : ∀ (xs ks : List Nat), xs.length ≤ ks.length →
    List.zipWith (fun a b => a ^^^ b) (List.zipWith (fun a b => a ^^^ b) xs ks) ks = xs := by
  intro xs
  induction xs with
  | nil => intro ks h; simp
  | cons x xs ih =>
    intro ks h
    cases ks with
    | nil => simp at h
    | cons k ks =>
      simp only [List.zipWith_cons_cons]
      rw [ih ks (by simp at h; omega), Nat.xor_cancel_right]

/-- The cipher's output has the input's length. -/
theorem chacha20_xor_length (key nonce : List Nat) (counter : Nat) (input : List Nat) :
    (chacha20_xor key nonce counter input).length = input.length := by
  simp [chacha20_xor, chachaKeystream_length]
  omega

/-- The keystream XOR is an involution: applying the transform twice with
identical key, nonce and counter returns the input. -/
theorem chacha20_xor_involution (key nonce : List Nat) (counter : Nat) (input : List Nat) :
    chacha20_xor key nonce counter (chacha20_xor key nonce counter input) = input := by
  simp only [chacha20_xor]
  rw [show (List.zipWith (fun a b => a ^^^ b) input
        (chachaKeystream (chachaInitState key nonce counter) ((input.length + 63) / 64))).length
      = input.length from by simp [chachaKeystream_length]; omega]
  exact zipWith_xor_cancel input _ (by simp [chachaKeystream_length]; omega)

/-- C1: for every 32-byte key, every 32-bit initial counter and every byte
sequence, encrypting with the key used as the nonce (the deployment's
decrypt convention) and then running chacha20_decrypt returns the original
sequence. -/
theorem c1_cipher_roundtrip (key : List Nat) (counter : Nat) (data : List Nat)
    (hkey : key.length = 32) (hctr : counter < 4294967296) :
    chacha20_encrypt key key counter data data.length
        = Except.ok (chacha20_xor key key counter data) ∧
    chacha20_decrypt key counter (chacha20_xor key key counter data) data.length
        = Except.ok data := by
  constructor
  · rw [chacha20_encrypt, if_pos rfl]
  · rw [chacha20_decrypt, chacha20_encrypt,
      if_pos (chacha20_xor_length key key counter data), chacha20_xor_involution]

/-- Witness for C1 at a concrete key, counter and message. -/
theorem c1_cipher_roundtrip_witness :
    chacha20_encrypt (List.replicate 32 0) (List.replicate 32 0) 7 [1, 2, 3] 3
        = Except.ok (chacha20_xor (List.replicate 32 0) (List.replicate 32 0) 7 [1, 2, 3]) ∧
    chacha20_decrypt (List.replicate 32 0) 7
        (chacha20_xor (List.replicate 32 0) (List.replicate 32 0) 7 [1, 2, 3]) 3
        = Except.ok [1, 2, 3] :=
  c1_cipher_roundtrip (List.replicate 32 0) 7 [1, 2, 3] (by simp) (by norm_num)

/-- C8: the equal-length buffer requirement of chacha20_encrypt is a hard
precondition: with unequal lengths the operation fails fatally before
producing output; with equal lengths the assertion never fires and the
operation completes, producing output of the input's length. -/
theorem c8_equal_length_contract (key nonce : List Nat) (counter : Nat)
    (input : List Nat) (outLen : Nat) :
    (input.length ≠ outLen →
      chacha20_encrypt key nonce counter input outLen
        = Except.error "Input and output buffers must be the same length") ∧
    (input.length = outLen →
      chacha20_encrypt key nonce counter input outLen
          = Except.ok (chacha20_xor key nonce counter input) ∧
      (chacha20_xor key nonce counter input).length = input.length) := by
  constructor
  · intro hne
    rw [chacha20_encrypt, if_neg hne]
  · intro heq
    exact ⟨by rw [chacha20_encrypt, if_pos heq], chacha20_xor_length key nonce counter input⟩

/-- Witness for C8: a mismatched call fails, an equal-length call succeeds. -/
theorem c8_equal_length_contract_witness :
    chacha20_encrypt [] [] 0 [1, 2] 5
        = Except.error "Input and output buffers must be the same length" ∧
    chacha20_encrypt [] [] 0 [1, 2] 2 = Except.ok (chacha20_xor [] [] 0 [1, 2]) ∧
    (chacha20_xor [] [] 0 [1, 2]).length = [1, 2].length :=
  ⟨(c8_equal_length_contract [] [] 0 [1, 2] 5).1 (by decide),
   (c8_equal_length_contract [] [] 0 [1, 2] 2).2 rfl⟩

/-- Little-endian word assembly is injective on byte values. -/
theorem fromLE4_inj {a b c d a2 b2 c2 d2 : Nat}
    (ha : a < 256) (hb : b < 256) (hc : c < 256) (_hd : d < 256)
    (ha2 : a2 < 256) (hb2 : b2 < 256) (hc2 : c2 < 256) (_hd2 : d2 < 256)
    (h : fromLE4 a b c d = fromLE4 a2 b2 c2 d2) :
    a = a2 ∧ b = b2 ∧ c = c2 ∧ d = d2 := by
  simp only [fromLE4] at h
  omega

/-- A byte read from a list of bytes below 256 is below 256. -/
theorem getD_lt_256 {l : List Nat} (hb : ∀ b ∈ l, b < 256) {j : Nat}
    (hj : j < l.length) : l.getD j 0 < 256 := by
  rw [List.getD_eq_getElem l 0 hj]
  exact hb _ (List.getElem_mem hj)

/-- C4 counterexample: the claim says the keystream depends on exactly the
first 16 bytes of the nonce, every change within bytes [0..16] being
reflected in the state.  The code consumes only nonce bytes [0..12] (3
little-endian words at state positions 13..16): two nonces differing at
byte 12 — inside the claimed window [0..16] — give the same initial state
and the same cipher output. -/
theorem c4_nonce_byte12_not_reflected :
    (List.replicate 32 0).set 12 1 ≠ List.replicate 32 0 ∧
    ((List.replicate 32 0).set 12 1).take 16 ≠ (List.replicate 32 0).take 16 ∧
    chachaInitState (List.replicate 32 0) ((List.replicate 32 0).set 12 1) 0
      = chachaInitState (List.replicate 32 0) (List.replicate 32 0) 0 ∧
    chacha20_xor (List.replicate 32 0) ((List.replicate 32 0).set 12 1) 0 [0]
      = chacha20_xor (List.replicate 32 0) (List.replicate 32 0) 0 [0] := by decide

/-- C4 (amended): the keystream depends on exactly the first 12 bytes of the
nonce, consumed as 3 little-endian 32-bit words at state words 13..16: two
nonces agreeing on bytes [0..12] give identical initial state and identical
output for every key, counter and input; conversely (for byte-valued
nonces of length at least 12) equal initial states force agreement on
bytes [0..12], so each of those bytes is reflected in the state. -/
theorem c4_nonce_dependence_amended (key : List Nat) (counter : Nat)
    (input : List Nat) (n1 n2 : List Nat) :
    ((∀ i, i < 12 → n1.getD i 0 = n2.getD i 0) →
      chachaInitState key n1 counter = chachaInitState key n2 counter ∧
      chacha20_xor key n1 counter input = chacha20_xor key n2 counter input) ∧
    ((∀ b ∈ n1, b < 256) → (∀ b ∈ n2, b < 256) → 12 ≤ n1.length → 12 ≤ n2.length →
      chachaInitState key n1 counter = chachaInitState key n2 counter →
      ∀ i, i < 12 → n1.getD i 0 = n2.getD i 0) := by
  constructor
  · intro h
    have hs : chachaInitState key n1 counter = chachaInitState key n2 counter := by
      simp only [chachaInitState]
      rw [h 0 (by omega), h 1 (by omega), h 2 (by omega), h 3 (by omega),
        h 4 (by omega), h 5 (by omega), h 6 (by omega), h 7 (by omega),
        h 8 (by omega), h 9 (by omega), h 10 (by omega), h 11 (by omega)]
    exact ⟨hs, by simp only [chacha20_xor, hs]⟩
  · intro hb1 hb2 hl1 hl2 hst i hi
    have B1 : ∀ j, j < 12 → n1.getD j 0 < 256 := fun j hj => getD_lt_256 hb1 (by omega)
    have B2 : ∀ j, j < 12 → n2.getD j 0 < 256 := fun j hj => getD_lt_256 hb2 (by omega)
    simp only [chachaInitState, List.cons.injEq, and_true, true_and] at hst
    obtain ⟨h13, h14, h15⟩ := hst
    obtain ⟨e0, e1, e2, e3⟩ := fromLE4_inj (B1 0 (by omega)) (B1 1 (by omega))
      (B1 2 (by omega)) (B1 3 (by omega)) (B2 0 (by omega)) (B2 1 (by omega))
      (B2 2 (by omega)) (B2 3 (by omega)) h13
    obtain ⟨e4, e5, e6, e7⟩ := fromLE4_inj (B1 4 (by omega)) (B1 5 (by omega))
      (B1 6 (by omega)) (B1 7 (by omega)) (B2 4 (by omega)) (B2 5 (by omega))
      (B2 6 (by omega)) (B2 7 (by omega)) h14
    obtain ⟨e8, e9, e10, e11⟩ := fromLE4_inj (B1 8 (by omega)) (B1 9 (by omega))
      (B1 10 (by omega)) (B1 11 (by omega)) (B2 8 (by omega)) (B2 9 (by omega))
      (B2 10 (by omega)) (B2 11 (by omega)) h15
    interval_cases i <;> assumption

/-- Witness for C4 (amended): two concrete nonces agreeing on their first 12
bytes but differing at byte 12 produce equal states and outputs. -/
theorem c4_nonce_dependence_amended_witness :
    chachaInitState (List.replicate 32 0) ((List.replicate 32 0).set 12 1) 5
      = chachaInitState (List.replicate 32 0) ((List.replicate 32 0).set 12 2) 5 ∧
    chacha20_xor (List.replicate 32 0) ((List.replicate 32 0).set 12 1) 5 [9]
      = chacha20_xor (List.replicate 32 0) ((List.replicate 32 0).set 12 2) 5 [9] :=
  (c4_nonce_dependence_amended (List.replicate 32 0) 5 [9]
    ((List.replicate 32 0).set 12 1) ((List.replicate 32 0).set 12 2)).1
    (by decide)

/-- Appending one identity byte to the input applies exactly one mixing
round, to state word `(index) mod 8`, with argument `byte + index`. -/
theorem hashRounds_snoc : ∀ (b : List Nat) (v : List Nat) (x n : Nat),
    hashRounds v (b ++ [x]) n
      = (hashRounds v b n).set ((n + b.length) % 8)
          (mixRound ((hashRounds v b n).getD ((n + b.length) % 8) 0)
            (wrap (x + (n + b.length)))) := by
  intro b
  induction b with
  | nil => intro v x n; simp [hashRounds]
  | cons y ys ih =>
    intro v x n
    simp only [List.cons_append, hashRounds, List.length_cons, List.append_eq]
    rw [ih]
    rw [show n + 1 + ys.length = n + (ys.length + 1) from by omega]

/-- C5: key derivation structure and determinism.  The 32-byte output of
hash_serial has length 32; its i-th little-endian 4-byte group (i < 8) is
state word `(i * 5) mod 8` after the mixing rounds; consuming one more
identity byte applies one mixing round to state word `index mod 8` with
the wrapping sum `byte + index`; and the result is a function of the seed
vector and the identity bytes alone (same inputs, same key). -/
theorem c5_hash_serial_structure (v b : List Nat) (x i : Nat) (hi : i < 8) :
    (hash_serial v b).length = 32 ∧
    ((hash_serial v b).drop (4 * i)).take 4
      = toLE4 ((hashRounds v b 0).getD ((i * 5) % 8) 0) ∧
    hashRounds v (b ++ [x]) 0
      = (hashRounds v b 0).set (b.length % 8)
          (mixRound ((hashRounds v b 0).getD (b.length % 8) 0) (wrap (x + b.length))) ∧
    (∀ v2 b2, v2 = v → b2 = b → hash_serial v2 b2 = hash_serial v b) := by
  refine ⟨?_, ?_, ?_, ?_⟩
  · rfl
  · interval_cases i <;> rfl
  · simpa using hashRounds_snoc b v x 0
  · intro v2 b2 hv hb2
    rw [hv, hb2]

/-- Witness for C5 at the default seed vector and a concrete identity. -/
theorem c5_hash_serial_structure_witness :
    (hash_serial DEFAULT_KEY_VECTOR [49, 50, 51]).length = 32 ∧
    ((hash_serial DEFAULT_KEY_VECTOR [49, 50, 51]).drop (4 * 1)).take 4
      = toLE4 ((hashRounds DEFAULT_KEY_VECTOR [49, 50, 51] 0).getD ((1 * 5) % 8) 0) ∧
    hashRounds DEFAULT_KEY_VECTOR ([49, 50, 51] ++ [52]) 0
      = (hashRounds DEFAULT_KEY_VECTOR [49, 50, 51] 0).set ([49, 50, 51].length % 8)
          (mixRound ((hashRounds DEFAULT_KEY_VECTOR [49, 50, 51] 0).getD
            ([49, 50, 51].length % 8) 0) (wrap (52 + [49, 50, 51].length))) ∧
    (∀ v2 b2, v2 = DEFAULT_KEY_VECTOR → b2 = [49, 50, 51] →
      hash_serial v2 b2 = hash_serial DEFAULT_KEY_VECTOR [49, 50, 51]) :=
  c5_hash_serial_structure DEFAULT_KEY_VECTOR [49, 50, 51] 52 1 (by decide)

/-- The first delimiter of a buffer stays the first delimiter after more
bytes are appended. -/
theorem findDelim_append_some : ∀ (l : List Nat) (p : Nat) (c : List Nat),
    findDelim l = some p → findDelim (l ++ c) = some p := by
  intro l
  induction l with
  | nil => intro p c h; simp [findDelim] at h
  | cons a tl ih =>
    intro p c h
    cases tl with
    | nil => simp [findDelim] at h
    | cons b tl2 =>
      rw [findDelim] at h
      rw [List.cons_append, List.cons_append, findDelim]
      by_cases hab : a = 13 ∧ b = 10
      · rw [if_pos hab] at h ⊢; exact h
      · rw [if_neg hab] at h ⊢
        cases hq : findDelim (b :: tl2) with
        | none => rw [hq] at h; simp at h
        | some q =>
          rw [hq] at h
          have happ := ih q c hq
          rw [List.cons_append] at happ
          rw [happ]
          exact h

/-- Streaming composition: extracting from `buf ++ c` yields the frames of
`buf` followed by the frames of the leftover-plus-`c`, with that second
extraction's leftover. -/
theorem extractAll_append (buf c : List Nat) :
    extractAll (buf ++ c)
      = ((extractAll buf).1 ++ (extractAll ((extractAll buf).2 ++ c)).1,
         (extractAll ((extractAll buf).2 ++ c)).2) := by
  cases h : findDelim buf with
  | none =>
    rw [extractAll_none h]
    simp
  | some p =>
    have hb := findDelim_bound buf p h
    have h2 := findDelim_append_some buf p c h
    rw [extractAll_some h, extractAll_some h2]
    rw [List.take_append_of_le_length (by omega), List.drop_append_of_le_length (by omega)]
    rw [extractAll_append (buf.drop (p + 2)) c]
    simp
termination_by buf.length
decreasing_by
  simp
  omega

/-- The leftover of an extraction contains no delimiter. -/
theorem extractAll_rest_none (buf : List Nat) : findDelim (extractAll buf).2 = none := by
  cases h : findDelim buf with
  | none => rw [extractAll_none h]; exact h
  | some p =>
    have hb := findDelim_bound buf p h
    rw [extractAll_some h]
    exact extractAll_rest_none (buf.drop (p + 2))
termination_by buf.length
decreasing_by
  simp
  omega

/-- Feeding chunks one at a time through the accumulator extracts exactly
the frames of the concatenated stream, in order, with the same leftover
(for any starting buffer that holds no complete frame yet). -/
theorem feedChunks_extractAll : ∀ (cs : List (List Nat)) (buf : List Nat),
    findDelim buf = none → feedChunks buf cs = extractAll (buf ++ cs.flatten) := by
  intro cs
  induction cs with
  | nil =>
    intro buf h
    simp [feedChunks, extractAll_none h]
  | cons c cs ih =>
    intro buf h
    simp only [feedChunks, List.flatten_cons]
    rw [ih (extractAll (buf ++ c)).2 (extractAll_rest_none (buf ++ c))]
    rw [← List.append_assoc]
    rw [extractAll_append (buf ++ c) cs.flatten]

/-- The second frame of the C6 scenario. -/
theorem extractAll_frame2 : extractAll [67, 68, 13, 10] = ([[67, 68]], []) := by
  rw [extractAll_some (show findDelim [67, 68, 13, 10] = some 2 from by decide)]
  show ([67, 68] :: (extractAll []).1, (extractAll []).2) = ([[67, 68]], [])
  rw [extractAll_none (show findDelim [] = none from rfl)]

/-- Extraction on the full C6 stream. -/
theorem extractAll_c6_stream :
    extractAll [65, 66, 13, 10, 67, 68, 13, 10] = ([[65, 66], [67, 68]], []) := by
  rw [extractAll_some
    (show findDelim [65, 66, 13, 10, 67, 68, 13, 10] = some 2 from by decide)]
  show ([65, 66] :: (extractAll [67, 68, 13, 10]).1, (extractAll [67, 68, 13, 10]).2)
    = ([[65, 66], [67, 68]], [])
  rw [extractAll_frame2]

/-- C6: feeding the byte stream "AB\r\nCD\r\n" into the accumulator, split
into sub-chunks in any way, yields exactly the two frames "AB" then "CD",
in that order, with an empty leftover and no delimiter byte in any frame's
content. -/
theorem c6_chunking_invariant (cs : List (List Nat))
    (h : cs.flatten = [65, 66, 13, 10, 67, 68, 13, 10]) :
    feedChunks [] cs = ([[65, 66], [67, 68]], []) ∧
    ∀ f ∈ (feedChunks [] cs).1, 13 ∉ f ∧ 10 ∉ f := by
  have hfc : feedChunks [] cs = ([[65, 66], [67, 68]], []) := by
    rw [feedChunks_extractAll cs [] rfl, List.nil_append, h, extractAll_c6_stream]
  refine ⟨hfc, ?_⟩
  rw [hfc]
  decide

/-- Witness for C6: a concrete split of the stream into three chunks, one of
which cuts a delimiter in half. -/
theorem c6_chunking_invariant_witness :
    feedChunks [] [[65, 66, 13], [10, 67], [68, 13, 10]] = ([[65, 66], [67, 68]], []) ∧
    ∀ f ∈ (feedChunks [] [[65, 66, 13], [10, 67], [68, 13, 10]]).1, 13 ∉ f ∧ 10 ∉ f :=
  c6_chunking_invariant [[65, 66, 13], [10, 67], [68, 13, 10]] (by decide)

/-- C2: the claim says every decrypted frame of length >= 14 whose first 7
bytes match the magic prefix is decoded without out-of-bounds access, in
particular a frame of length exactly 14.  The code's guard admits length
14 but then slices bytes [13..15], which is out of bounds for a 14-byte
frame: evaluated at that frame the decoder reaches the panicking slice
(the error branch of the embedding) instead of producing an event. -/
theorem c2_decoder_oob_at_length14 :
    c2_failing_frame.length = 14 ∧
    c2_failing_frame.take 7 = EXPECTED_PREFIX ∧
    process_serial_message_with_emit c2_failing_frame 0x5508
      = Except.error "range end index 15 out of range for slice of length 14" := by
  decide

/-- C7: the decoder maps the 15-byte magic-prefixed frame with identifier
bytes 01..06 and value bytes 00 2a to the colon-joined lowercase-hex
identifier "01:02:03:04:05:06" and big-endian value 42; and every input
shorter than 14 bytes or with a mismatched first 7 bytes produces no
event. -/
theorem c7_decoder_example_and_rejections :
    process_serial_message_with_emit c7_example_frame 0x5508
      = Except.ok (some ⟨"01:02:03:04:05:06".toList, 42, 0x5508⟩) ∧
    (∀ (msg : List Nat) (pid : Nat),
      msg.length < 14 ∨ msg.take 7 ≠ EXPECTED_PREFIX →
      process_serial_message_with_emit msg pid = Except.ok none) := by
  constructor
  · decide
  · intro msg pid h
    have hcond : ¬(14 ≤ msg.length ∧ msg.take 7 = EXPECTED_PREFIX) := by
      rintro ⟨hl, hp⟩
      rcases h with h2 | h2
      · omega
      · exact h2 hp
    rw [process_serial_message_with_emit, if_neg hcond]

/-- Witness for C7's rejection clause at the empty input. -/
theorem c7_decoder_example_and_rejections_witness :
    process_serial_message_with_emit [] 0 = Except.ok none :=
  c7_decoder_example_and_rejections.2 [] 0 (Or.inl (by decide))

/-- A buffer of zero bytes contains no delimiter window. -/
theorem findDelim_replicate_zero : ∀ n : Nat, findDelim (List.replicate n 0) = none := by
  intro n
  induction n with
  | zero => rfl
  | succ m ih =>
    cases m with
    | zero => rfl
    | succ k =>
      rw [List.replicate_succ, List.replicate_succ, findDelim, if_neg (by decide)]
      rw [← List.replicate_succ, ih]
      rfl

/-- C3: the claim says the 4096-byte accumulator ceiling holds on every read
path.  The USB bulk path does clear the buffer and surface the framing
error once 4097 delimiter-free bytes accumulate, but the serial-port read
loop has no ceiling at all: the same 4097 delimiter-free bytes are
retained in data_buffer (no reset, no error channel exists on that path),
so that accumulator can grow without bound. -/
theorem c3_overflow_ceiling_serial_vs_usb :
    read_snappy_data_via_usb [] (List.replicate 4097 0) (List.replicate 32 0) 0
      = ([], some (Except.error "Accumulator overflow without frame delimiter; buffer reset")) ∧
    serialReadStep [] (List.replicate 4097 0) (List.replicate 32 0) 0
      = ([], List.replicate 4097 0) ∧
    4096 < (serialReadStep [] (List.replicate 4097 0) (List.replicate 32 0) 0).2.length := by
  have hs : serialReadStep [] (List.replicate 4097 0) (List.replicate 32 0) 0
      = ([], List.replicate 4097 0) := by
    simp only [serialReadStep, List.nil_append]
    rw [extractAll_none (findDelim_replicate_zero 4097)]
    rfl
  have hcond : (([] : List Nat) ++ List.replicate 4097 0).length > 4096 := by
    rw [List.nil_append, List.length_replicate]
    omega
  refine ⟨?_, hs, ?_⟩
  · simp only [read_snappy_data_via_usb]
    rw [if_pos hcond]
  · rw [hs]
    show 4096 < (List.replicate 4097 0).length
    rw [List.length_replicate]
    omega

/-- C9: with the collecting flag cleared, the discovery-poll loop and the
serial read loop both exit at the very next iteration's flag check,
before any work, and a read-loop run whose flag readings are all false
emits nothing. -/
theorem c9_stop_halts_loops (g : List Char → Option (List Char))
    (ports : List PortInfo) (hash_key buf chunk hash : List Nat)
    (counter device_pid : Nat) (flags : List Bool) (chunks : List (List Nat)) :
    pollLoopStep false g ports hash_key = none ∧
    serialReadLoopStep false buf chunk hash counter device_pid = none ∧
    ((∀ f ∈ flags, f = false) →
      serialReadLoopRun flags chunks buf hash counter device_pid = []) := by
  refine ⟨rfl, rfl, ?_⟩
  intro hf
  cases flags with
  | nil => rfl
  | cons f fs =>
    cases chunks with
    | nil => rfl
    | cons c cs =>
      have hfalse : f = false := hf f (by simp)
      subst hfalse
      rfl

/-- Witness for C9 at a concrete environment and a two-iteration run. -/
theorem c9_stop_halts_loops_witness :
    pollLoopStep false (fun _ => none) [] [] = none ∧
    serialReadLoopStep false [] [] [] 0 0 = none ∧
    serialReadLoopRun [false, false] [[1], [2]] [] [] 0 0 = [] := by
  have h := c9_stop_halts_loops (fun _ => none) [] [] [] [] [] 0 0
    [false, false] [[1], [2]]
  exact ⟨h.1, h.2.1, h.2.2 (by decide)⟩

/-- When no enumerated port matches the vendor/product allow-list, the poll
iteration leaves the cached key bytes untouched and detects nothing. -/
theorem pollIteration_no_match (g : List Char → Option (List Char))
    (hash_key : List Nat) : ∀ ports : List PortInfo,
    (∀ p ∈ ports, ¬(p.vid = VID ∧ p.pid ∈ PIDS)) →
    pollIteration g ports hash_key = (hash_key, none) := by
  intro ports
  induction ports with
  | nil => intro _; rfl
  | cons p rest ih =>
    intro h
    rw [pollIteration, if_neg (h p (List.mem_cons_self p rest))]
    exact ih (fun q hq => h q (List.mem_cons_of_mem p hq))

/-- C10: the cached key-material buffer is written only when a matched
device yields a serial: with no matching device the previous bytes
survive the iteration; with a matched device whose effective serial is
absent they also survive (so a later serial-less device reuses them); and
with a serial present they are replaced by that serial's key bytes. -/
theorem c10_hash_key_update_policy (g : List Char → Option (List Char))
    (hash_key : List Nat) :
    (∀ ports : List PortInfo, (∀ p ∈ ports, ¬(p.vid = VID ∧ p.pid ∈ PIDS)) →
      pollIteration g ports hash_key = (hash_key, none)) ∧
    (∀ (p : PortInfo) (rest : List PortInfo), p.vid = VID → p.pid ∈ PIDS →
      effectiveSerial g p = none →
      pollIteration g (p :: rest) hash_key = (hash_key, some (p.port_name, p.pid))) ∧
    (∀ (p : PortInfo) (rest : List PortInfo) (s : List Char), p.vid = VID →
      p.pid ∈ PIDS → effectiveSerial g p = some s →
      pollIteration g (p :: rest) hash_key
        = (serialToKeyBytes s, some (p.port_name, p.pid))) := by
  refine ⟨pollIteration_no_match g hash_key, ?_, ?_⟩
  · intro p rest hvid hpid hser
    rw [pollIteration, if_pos ⟨hvid, hpid⟩, hser]
  · intro p rest s hvid hpid hser
    rw [pollIteration, if_pos ⟨hvid, hpid⟩, hser]

/-- Witness for C10: no device, a matched serial-less device, and a matched
device with a one-character serial. -/
theorem c10_hash_key_update_policy_witness :
    pollIteration (fun _ => none) [] [1, 2, 3] = ([1, 2, 3], none) ∧
    pollIteration (fun _ => none) [⟨0xb1b0, 0x5508, [], none⟩] [1, 2, 3]
      = ([1, 2, 3], some ([], 0x5508)) ∧
    pollIteration (fun _ => some ['a']) [⟨0xb1b0, 0x8055, [], none⟩] [1, 2, 3]
      = (serialToKeyBytes ['a'], some ([], 0x8055)) :=
  ⟨(c10_hash_key_update_policy (fun _ => none) [1, 2, 3]).1 [] (by simp),
   (c10_hash_key_update_policy (fun _ => none) [1, 2, 3]).2.1
     ⟨0xb1b0, 0x5508, [], none⟩ [] rfl (by decide) (by decide),
   (c10_hash_key_update_policy (fun _ => some ['a']) [1, 2, 3]).2.2
     ⟨0xb1b0, 0x8055, [], none⟩ [] ['a'] rfl (by decide) (by decide)⟩
